import Mathlib

/-!
Verification of the spend-variance aggregation and commentary core of the
variance-analysis tool (`src/App.jsx`).

Modelling conventions:
* A raw CSV row is a record of optional string cells (a missing column is
  `none`, mirroring JavaScript `undefined`).
* JavaScript numbers are modelled as exact rationals (`ℚ`); `Math.round x`
  is `⌊x + 1/2⌋` and the literal `0.85` is the rational `85/100`.
* JavaScript objects used as insertion-ordered hash maps (`catMap`,
  `driverMap`) are modelled as association lists that preserve first-seen
  key order, exactly as `Object.values` enumerates them.
* `Array.prototype.sort` is stable with a consistent comparator
  `(a, b) => |b.variance| - |a.variance|`, so it is reproduced by
  `List.mergeSort` (stable) with the total relation `|b.v| ≤ |a.v|`.
* The Claude HTTP endpoint used by `enhanceWithAI` is modelled as an
  oracle mapping each item index to a service behaviour: the call either
  throws (network/JSON failure) or yields a response whose optional
  `content` array of optional `text` fragments is concatenated exactly as
  `data.content?.map(c => c.text || "").join("") || ""` does.
-/

namespace VarianceTool

/-- A raw parsed CSV row: each cell is an optional string, `none` modelling a
missing column (JavaScript `undefined`). Field names follow the CSV headers
read in `processCSVData`. -/
structure Row where
  market : Option String := none
  spendCategory : Option String := none
  costCenter : Option String := none
  supplier : Option String := none
  department : Option String := none
  amount : Option String := none
  varianceAmount : Option String := none
  lineMemo : Option String := none
deriving DecidableEq, Repr

/-- Accumulator value of `catMap` in `processCSVData`. -/
structure CatAcc where
  name : String
  totalAmount : ℚ
  totalVariance : ℚ
  rowCount : Nat
deriving DecidableEq, Repr

/-- A category aggregate as returned in `processCSVData().categories`. -/
structure Category where
  name : String
  prior : ℚ
  current : ℚ
  variance : ℚ
  variancePct : ℚ
  rowCount : Nat
deriving DecidableEq, Repr

/-- A driver aggregate as accumulated in `driverMap` and returned in
`processCSVData().drivers`. `supplier` and `department` stay optional since
the source stores the possibly-`undefined` cell verbatim. -/
structure Driver where
  category : String
  costCenter : String
  supplier : Option String
  department : Option String
  variance : ℚ
  rowCount : Nat
  memos : List String
deriving DecidableEq, Repr

/-- A commentary item as built by `generatePythonCommentary` and updated by
`enhanceWithAI`. -/
structure CommentaryItem where
  title : String
  pythonSentence : String
  aiEnhancement : Option String
  severity : String
  type : String
  categoryName : String
deriving DecidableEq, Repr

/-- The result bundle of `processCSVData`. -/
structure ProcessResult where
  categories : List Category
  drivers : List Driver
  allRows : List Row
deriving DecidableEq, Repr

/-- Value of a list of decimal digit characters. -/
def digitsToNat (cs : List Char) : Nat :=
  cs.foldl (fun n c => 10 * n + (c.toNat - '0'.toNat)) 0

/-- Exponent tail of a JavaScript float literal: an optional sign followed by
digits; an incomplete exponent (no digits) is ignored, as `parseFloat`
backtracks to the longest valid numeric prefix. -/
def expTail (cs : List Char) : ℚ :=
  let (neg, cs2) :=
    match cs with
    | '-' :: r => (true, r)
    | '+' :: r => (false, r)
    | _ => (false, cs)
  let ds := (cs2.span (·.isDigit)).1
  if ds = [] then 1
  else if neg then 1 / (10 : ℚ) ^ digitsToNat ds
  else (10 : ℚ) ^ digitsToNat ds

/-- Exponent factor: applies when the remainder starts with `e` or `E`. -/
def expFactor (cs : List Char) : ℚ :=
  match cs with
  | 'e' :: rest => expTail rest
  | 'E' :: rest => expTail rest
  | _ => 1

/-- Model of JavaScript `parseFloat` on finite decimal literals: skip leading
whitespace, optional sign, integer digits, optional fraction, optional
exponent; `none` when no digit is found (JavaScript `NaN`). The special
`Infinity` literal is outside the rational model; CSV numeric cells are
finite decimals. -/
def jsParseFloat (s : String) : Option ℚ :=
  let cs := s.data.dropWhile fun c => c = ' ' ∨ c = '\t' ∨ c = '\n' ∨ c = '\r'
  let (sign, cs1) : ℚ × List Char :=
    match cs with
    | '-' :: rest => (-1, rest)
    | '+' :: rest => (1, rest)
    | _ => (1, cs)
  let (intDigits, cs2) := cs1.span (·.isDigit)
  let (fracDigits, cs3) :=
    match cs2 with
    | '.' :: rest => rest.span (·.isDigit)
    | _ => ([], cs2)
  if intDigits = [] ∧ fracDigits = [] then none
  else
    let base : ℚ :=
      (digitsToNat intDigits : ℚ) +
        (digitsToNat fracDigits : ℚ) / (10 : ℚ) ^ fracDigits.length
    some (sign * base * expFactor cs3)

/-- The `parseNum` helper of `processCSVData`:
`(s || "0").replace(/,/g, "")` then `parseFloat(...) || 0`. -/
def parseNum (s : Option String) : ℚ :=
  let str :=
    match s with
    | none => "0"
    | some t => if t = "" then "0" else t
  match jsParseFloat (String.mk (str.data.filter (· ≠ ','))) with
  | none => 0
  | some q => q

/-- JavaScript `Math.round`: `⌊x + 1/2⌋` (half rounds toward `+∞`). -/
def jsRound (q : ℚ) : ℚ := ((q + 1 / 2).floor : ℤ)

/-- String interpolation of a possibly-`undefined` value: JavaScript template
literals render `undefined` as the string `"undefined"`. -/
def jsTemplateStr : Option String → String
  | none => "undefined"
  | some s => s

/-- Comparator relation used by every driver sort in the source:
`(a, b) => Math.abs(b.variance) - Math.abs(a.variance)` sorts descending by
absolute variance, stably. `driverLE a b` means `a` may precede `b`. -/
def driverLE (a b : Driver) : Bool := decide (|b.variance| ≤ |a.variance|)

/-- Comparator relation of the category sort in `generatePythonCommentary`. -/
def catLE (a b : Category) : Bool := decide (|b.variance| ≤ |a.variance|)

/-- Insertion-ordered upsert on an association list: if the key is present
its value is updated in place, otherwise `(k, f init)` is appended — exactly
the `if (!map[k]) map[k] = init; mutate(map[k])` idiom of the source. -/
def updateAssoc {β : Type} (m : List (String × β)) (k : String) (f : β → β)
    (init : β) : List (String × β) :=
  match m with
  | [] => [(k, f init)]
  | (k', v) :: rest =>
    if k' = k then (k', f v) :: rest else (k', v) :: updateAssoc rest k f init

/-- The market filter at the top of `processCSVData` (lines 56–60). -/
def filterByMarket (rows : List Row) (marketFilter : String) : List Row :=
  if marketFilter = "All" then rows
  else rows.filter fun r =>
    if marketFilter = "JP" then r.market == some "APAC"
    else if marketFilter = "Non-JP" then r.market != some "APAC"
    else true

/-- One step of the `catMap` accumulation loop: skip the row when
`Spend Category` is falsy (missing or empty), otherwise add the parsed
amount and variance and bump the row count. -/
def catStep (m : List (String × CatAcc)) (r : Row) : List (String × CatAcc) :=
  match r.spendCategory with
  | none => m
  | some cat =>
    if cat = "" then m
    else
      updateAssoc m cat
        (fun c =>
          { c with
            totalAmount := c.totalAmount + parseNum r.amount
            totalVariance := c.totalVariance + parseNum r.varianceAmount
            rowCount := c.rowCount + 1 })
        { name := cat, totalAmount := 0, totalVariance := 0, rowCount := 0 }

/-- The per-category projection of `processCSVData`: round the three monetary
figures independently and compute `variancePct` from the *unrounded* prior
(the ternary guards on the unrounded `prior` variable). -/
def mkCategory (c : CatAcc) : Category :=
  let prior := c.totalAmount - c.totalVariance
  { name := c.name
    prior := jsRound prior
    current := jsRound c.totalAmount
    variance := jsRound c.totalVariance
    variancePct := if prior != 0 then c.totalVariance / prior * 100 else 0
    rowCount := c.rowCount }

/-- The grouping key of `driverMap`: the template literal
`` `${cat}||${cc}||${sup}` `` (an `undefined` supplier renders as the string
`"undefined"`). -/
def mkKey (cat cc : String) (sup : Option String) : String :=
  cat ++ "||" ++ cc ++ "||" ++ jsTemplateStr sup

/-- One step of the `driverMap` accumulation loop: skip the row when
`Spend Category` or `Cost Center` is falsy, otherwise upsert under the
joined key, accumulating variance and row count and appending a truthy
`Line Memo`. -/
def driverStep (m : List (String × Driver)) (r : Row) : List (String × Driver) :=
  match r.spendCategory, r.costCenter with
  | some cat, some cc =>
    if cat = "" ∨ cc = "" then m
    else
      updateAssoc m (mkKey cat cc r.supplier)
        (fun d =>
          { d with
            variance := d.variance + parseNum r.varianceAmount
            rowCount := d.rowCount + 1
            memos :=
              match r.lineMemo with
              | some memo => if memo = "" then d.memos else d.memos ++ [memo]
              | none => d.memos })
        { category := cat, costCenter := cc, supplier := r.supplier
          department := r.department, variance := 0, rowCount := 0, memos := [] }
  | _, _ => m

/-- The `processCSVData` pipeline: market filter, category aggregation,
driver aggregation with per-driver rounding and a stable sort descending by
absolute variance. -/
def processCSVData (rows : List Row) (marketFilter : String) : ProcessResult :=
  let filtered := filterByMarket rows marketFilter
  let catMap := filtered.foldl catStep []
  let categories := (catMap.map Prod.snd).map mkCategory
  let driverMap := filtered.foldl driverStep []
  let drivers :=
    ((driverMap.map Prod.snd).map fun d => { d with variance := jsRound d.variance }).mergeSort
      driverLE
  { categories := categories, drivers := drivers, allRows := filtered }

/-- The drivers of one category sorted descending by absolute variance — the
expression `drivers.filter(d => d.category === name).sort(byAbsDesc)` shared
by `getTop85Memos` and `generatePythonCommentary`. -/
def catDriversOf (drivers : List Driver) (categoryName : String) : List Driver :=
  (drivers.filter fun d => d.category == categoryName).mergeSort driverLE

/-- The memo-collection loop of `getTop85Memos`: break *before* accumulating
whenever the running cumulative total already meets the threshold, otherwise
add the driver's absolute variance and push its first 5 memos. -/
def memoLoop (threshold : ℚ) : ℚ → List Driver → List String
  | _, [] => []
  | cumulative, d :: rest =>
    if cumulative ≥ threshold then []
    else d.memos.take 5 ++ memoLoop threshold (cumulative + |d.variance|) rest

/-- `getTop85Memos`: walk the sorted per-category drivers until 85% of the
total absolute variance is covered, then cap the collected memos at 30. -/
def getTop85Memos (drivers : List Driver) (categoryName : String) : List String :=
  let catDrivers := catDriversOf drivers categoryName
  let totalAbsVar := (catDrivers.map fun d => |d.variance|).sum
  let threshold := totalAbsVar * (85 / 100 : ℚ)
  (memoLoop threshold 0 catDrivers).take 30

/-- Provenance-tagged variant of `memoLoop`: identical control flow, but each
memo carries the position of the driver that contributed it. -/
def memoLoopTagged (threshold : ℚ) : ℚ → Nat → List Driver → List (Nat × String)
  | _, _, [] => []
  | cumulative, i, d :: rest =>
    if cumulative ≥ threshold then []
    else
      ((d.memos.take 5).map fun m => (i, m)) ++
        memoLoopTagged threshold (cumulative + |d.variance|) (i + 1) rest

/-- Provenance-tagged variant of `getTop85Memos`; erasing the tags recovers
`getTop85Memos` exactly. -/
def getTop85MemosTagged (drivers : List Driver) (categoryName : String) :
    List (Nat × String) :=
  let catDrivers := catDriversOf drivers categoryName
  let totalAbsVar := (catDrivers.map fun d => |d.variance|).sum
  let threshold := totalAbsVar * (85 / 100 : ℚ)
  (memoLoopTagged threshold 0 0 catDrivers).take 30

/-- Digit grouping of `Number.prototype.toLocaleString`: commas every three
digits, working over a reversed digit list. -/
def group3 : List Char → List Char
  | a :: b :: c :: d :: rest => a :: b :: c :: ',' :: group3 (d :: rest)
  | l => l

/-- Zero-padded three-digit rendering of a thousands remainder. -/
def pad3 (n : Nat) : String :=
  if n < 10 then "00" ++ toString n
  else if n < 100 then "0" ++ toString n
  else toString n

/-- Model of `Number.prototype.toLocaleString` for the integer values that
reach it in `fmtVar` (all call sites pass `Math.round` outputs, and the
branch requires `|n| < 1000`): sign, grouped integer digits, and up to three
rounded fraction digits with trailing zeros trimmed for non-integral
inputs. -/
def jsToLocaleString (q : ℚ) : String :=
  let sign := if q < 0 then "-" else ""
  let a := |q|
  let ip := a.floor.toNat
  let fd := (((a - (ip : ℚ)) * 1000 + 1 / 2).floor).toNat
  let ipStr := String.mk (group3 (toString ip).data.reverse).reverse
  let frStr :=
    if fd = 0 then ""
    else "." ++ String.mk ((pad3 fd).data.reverse.dropWhile (· = '0')).reverse
  sign ++ ipStr ++ frStr

/-- Fixed-point rendering of `Number.prototype.toFixed f`: the sign is taken
first, then the nearest `f`-digit decimal of the absolute value, ties toward
the larger significand. -/
def jsToFixed (x : ℚ) (f : Nat) : String :=
  let sign := if x < 0 then "-" else ""
  let m := ((|x| * (10 : ℚ) ^ f + 1 / 2).floor).toNat
  if f = 0 then sign ++ toString m
  else sign ++ toString (m / 10 ^ f) ++ "." ++
    String.mk (((pad3 (m % 10 ^ f)).data.reverse.take f).reverse)

/-- The `fmtVar` formatter: explicit `+` for non-negative values, `M`/`K`
scaling, plain locale rendering below a thousand. -/
def fmtVar (n : ℚ) : String :=
  let pre := if n ≥ 0 then "+" else ""
  if |n| ≥ 1000000 then pre ++ "$" ++ jsToFixed (n / 1000000) 1 ++ "M"
  else if |n| ≥ 1000 then pre ++ "$" ++ jsToFixed (n / 1000) 0 ++ "K"
  else pre ++ "$" ++ jsToLocaleString n

/-- `generatePythonCommentary`: sort the categories descending by absolute
variance, then for each category with at least one driver emit the factual
item; `map` to `null` plus `.filter(Boolean)` is the composed `filterMap`. -/
def generatePythonCommentary (categories : List Category) (drivers : List Driver) :
    List CommentaryItem :=
  let sorted := categories.mergeSort catLE
  sorted.filterMap fun cat =>
    match catDriversOf drivers cat.name with
    | [] => none
    | top :: _ =>
      let direction := if cat.variance ≥ (0 : ℚ) then "increased" else "decreased"
      let body :=
        cat.name ++ " spend " ++ direction ++ " " ++ fmtVar cat.variance ++
          " vs. prior period, driven primarily by " ++ top.costCenter ++ " (" ++
          fmtVar top.variance ++ " via " ++ jsTemplateStr top.supplier ++ ")."
      some
        { title := cat.name ++ " Variance"
          pythonSentence := body
          aiEnhancement := none
          severity := if cat.variance ≥ (0 : ℚ) then "high" else "favorable"
          type := "Python Generated"
          categoryName := cat.name }

/-- The commentary slice of `runAnalysis` (line 387):
`generatePythonCommentary(categories, drivers).slice(0, numComments)`. -/
def runCommentary (categories : List Category) (drivers : List Driver)
    (numComments : Nat) : List CommentaryItem :=
  (generatePythonCommentary categories drivers).take numComments

/-- Behaviour of one text-generation service call: the request throws, or it
yields a parsed body whose optional `content` array holds fragments with
optional `text` fields. -/
inductive ServiceBehavior where
  | throwErr : ServiceBehavior
  | respond : Option (List (Option String)) → ServiceBehavior
deriving DecidableEq, Repr

/-- The text extraction `data.content?.map(c => c.text || "").join("") || ""`:
a missing `content` yields the empty string, and missing `text` fields
contribute empty fragments. -/
def aiTextOf : Option (List (Option String)) → String
  | none => ""
  | some parts => String.join (parts.map fun t => t.getD "")

/-- The text a service behaviour effectively delivers: a thrown call delivers
nothing, a response delivers its concatenated fragments. -/
def respText : ServiceBehavior → String
  | ServiceBehavior.throwErr => ""
  | ServiceBehavior.respond content => aiTextOf content

/-- One iteration of the `enhanceWithAI` loop for the item at index `i`:
skip items with no selected memos, absorb a thrown call, ignore an empty
extracted text, and otherwise attach the trimmed narrative and flip the
type tag. -/
def stepEnhance (drivers : List Driver) (oracle : Nat → ServiceBehavior)
    (i : Nat) (item : CommentaryItem) : CommentaryItem :=
  let memos := getTop85Memos drivers item.categoryName
  if memos.length = 0 then item
  else
    match oracle i with
    | ServiceBehavior.throwErr => item
    | ServiceBehavior.respond content =>
      let aiText := aiTextOf content
      if aiText = "" then item
      else
        { item with
          aiEnhancement := some aiText.trim
          type := "Python + AI Generated" }

/-- Index-carrying traversal of the `enhanceWithAI` loop. -/
def enhanceGo (drivers : List Driver) (oracle : Nat → ServiceBehavior) :
    Nat → List CommentaryItem → List CommentaryItem
  | _, [] => []
  | i, item :: rest =>
    stepEnhance drivers oracle i item :: enhanceGo drivers oracle (i + 1) rest

/-- `enhanceWithAI`: sequentially enhance each commentary item, the service
modelled as a per-index oracle; the function is total — every failure mode
is absorbed into returning the item unchanged, mirroring the `try/catch`
with a silent fallback. -/
def enhanceWithAI (commentary : List CommentaryItem) (drivers : List Driver)
    (oracle : Nat → ServiceBehavior) : List CommentaryItem :=
  enhanceGo drivers oracle 0 commentary

/-- Equality of the (category, costCenter, supplier) grouping triple. -/
def sameTriple (d1 d2 : Driver) : Prop :=
  d1.category = d2.category ∧ d1.costCenter = d2.costCenter ∧
    d1.supplier = d2.supplier

/-- Invariant of the `driverMap` association list: keys are distinct and each
key is the joined key of its value's grouping triple. -/
def driverMapInv (m : List (String × Driver)) : Prop :=
  (m.map Prod.fst).Nodup ∧
    ∀ p ∈ m, p.1 = mkKey p.2.category p.2.costCenter p.2.supplier

/-- The single-row fixture of end-to-end scenario 1. -/
def rentRow : Row :=
  { market := none, spendCategory := some "Rent", costCenter := some "CC-535"
    supplier := some "Amazon", department := none, amount := some "1,238"
    varianceAmount := some "238", lineMemo := some "Q2 renewal" }

/-- A row whose unrounded prior is 1/4: amount 1.25, variance 1. -/
def fracPriorRow : Row :=
  { market := none, spendCategory := some "X", costCenter := some "CC-1"
    supplier := some "S", department := none, amount := some "1.25"
    varianceAmount := some "1", lineMemo := none }

/-- A zero-variance driver that still carries a memo. -/
def zeroVarDriver : Driver :=
  { category := "X", costCenter := "CC-1", supplier := some "S"
    department := none, variance := 0, rowCount := 1, memos := ["m"] }

/-- A driver fixture with nonzero variance and two memos. -/
def posVarDriver : Driver :=
  { category := "X", costCenter := "CC-1", supplier := some "S"
    department := none, variance := 7, rowCount := 1, memos := ["m1", "m2"] }

/-- Category fixtures for the commentary-selection counterexample: `A` has
the largest absolute variance but no driver. -/
def catA : Category :=
  { name := "A", prior := 0, current := 100, variance := 100, variancePct := 0
    rowCount := 1 }

def catB : Category :=
  { name := "B", prior := 0, current := 50, variance := 50, variancePct := 0
    rowCount := 1 }

def catC : Category :=
  { name := "C", prior := 0, current := 30, variance := 30, variancePct := 0
    rowCount := 1 }

/-- Driver fixtures: categories `B` and `C` each have one driver, `A` none. -/
def drvB : Driver :=
  { category := "B", costCenter := "CC-B", supplier := some "SB"
    department := none, variance := 50, rowCount := 1, memos := [] }

def drvC : Driver :=
  { category := "C", costCenter := "CC-C", supplier := some "SC"
    department := none, variance := 30, rowCount := 1, memos := [] }

/-- A factual-only commentary item fixture over category `X`. -/
def itemX : CommentaryItem :=
  { title := "X Variance", pythonSentence := "X spend increased +$7 vs. prior period."
    aiEnhancement := none, severity := "high", type := "Python Generated"
    categoryName := "X" }

/-- An oracle that always answers with the fixed text "ok". -/
def okOracle : Nat → ServiceBehavior :=
  fun _ => ServiceBehavior.respond (some [some "ok"])

/-- An oracle that always throws. -/
def throwOracle : Nat → ServiceBehavior :=
  fun _ => ServiceBehavior.throwErr

/-- The category aggregate that scenario 1 expects for `rentRow`. -/
def rentCategory : Category :=
  { name := "Rent", prior := 1000, current := 1238, variance := 238
    variancePct := 119 / 5, rowCount := 1 }

/-- The driver aggregate that scenario 1 expects for `rentRow`. -/
def rentDriver : Driver :=
  { category := "Rent", costCenter := "CC-535", supplier := some "Amazon"
    department := none, variance := 238, rowCount := 1, memos := ["Q2 renewal"] }

/-- The category aggregate the pipeline produces for `fracPriorRow`: the
rounded prior is 0, yet the variance percentage is 400. -/
def fracCategory : Category :=
  { name := "X", prior := 0, current := 1, variance := 1, variancePct := 400
    rowCount := 1 }

/-- The commentary item the generator produces for `catB` with `drvB`. -/
def itemB : CommentaryItem :=
  { title := "B Variance"
    pythonSentence :=
      "B spend increased +$50 vs. prior period, driven primarily by CC-B (+$50 via SB)."
    aiEnhancement := none, severity := "high", type := "Python Generated"
    categoryName := "B" }

/-- A commentary item over a category with no drivers at all. -/
def itemNoMemo : CommentaryItem :=
  { title := "Z Variance", pythonSentence := "Z spend increased +$0 vs. prior period."
    aiEnhancement := none, severity := "high", type := "Python Generated"
    categoryName := "Z" }

/- ════════════════════════════════════════════════════════════════
   Theorems
   ════════════════════════════════════════════════════════════════ -/

set_option maxRecDepth 8000

/-- The driver comparator is transitive. -/
theorem driverLE_trans (a b c : Driver) (h1 : driverLE a b) (h2 : driverLE b c) :
    driverLE a c := by
  simp only [driverLE, decide_eq_true_eq] at *
  exact le_trans h2 h1

/-- The driver comparator is total. -/
theorem driverLE_total (a b : Driver) : driverLE a b || driverLE b a := by
  simp only [driverLE, Bool.or_eq_true, decide_eq_true_eq]
  exact le_total _ _

/-- The category comparator is transitive. -/
theorem catLE_trans (a b c : Category) (h1 : catLE a b) (h2 : catLE b c) :
    catLE a c := by
  simp only [catLE, decide_eq_true_eq] at *
  exact le_trans h2 h1

/-- The category comparator is total. -/
theorem catLE_total (a b : Category) : catLE a b || catLE b a := by
  simp only [catLE, Bool.or_eq_true, decide_eq_true_eq]
  exact le_total _ _

/-- C5: the Market Filter keeps exactly the `Market = "APAC"` rows for `JP`,
exactly the other rows for `Non-JP`, is the identity for `All`, and always
preserves the relative order of the input rows (its result is a sublist of
the input). -/
theorem c5_market_filter (rows : List Row) :
    filterByMarket rows "JP" = rows.filter (fun r => r.market == some "APAC") ∧
    filterByMarket rows "Non-JP" = rows.filter (fun r => r.market != some "APAC") ∧
    filterByMarket rows "All" = rows ∧
    ∀ mf : String, (filterByMarket rows mf).Sublist rows := by
  refine ⟨?_, ?_, ?_, ?_⟩
  · rw [filterByMarket, if_neg (by decide)]
    refine List.filter_congr fun r _ => ?_
    rw [if_pos rfl]
  · rw [filterByMarket, if_neg (by decide)]
    refine List.filter_congr fun r _ => ?_
    rw [if_neg (by decide), if_pos rfl]
  · rw [filterByMarket, if_pos rfl]
  · intro mf
    rw [filterByMarket]
    split
    · exact List.Sublist.refl _
    · exact List.filter_sublist _

/-- C6: end-to-end scenario 1 — the single `rentRow` under market scope
`All` produces exactly one category aggregate (Rent, prior 1000, current
1238, variance 238, 23.8 % = 119/5) and exactly one driver aggregate
(Rent/CC-535/Amazon, variance 238, memos `["Q2 renewal"]`). -/
theorem c6_scenario1 :
    (processCSVData [rentRow] "All").categories = [rentCategory] ∧
    (processCSVData [rentRow] "All").drivers = [rentDriver] := by
  constructor
  · with_unfolding_all decide
  · with_unfolding_all decide

/-- C1 counterexample: with categories A (variance 100, no driver),
B (50, one driver) and C (30, one driver) and N = 2, the top-2 categories
by absolute variance are A and B, yet the emitted commentary covers B and
C — category C, outside the top 2, contributes an item in A's place,
contradicting the claim that no category outside the top N can contribute. -/
theorem c1_counterexample :
    (runCommentary [catA, catB, catC] [drvB, drvC] 2).map
        (fun i => i.categoryName) = ["B", "C"] ∧
    (([catA, catB, catC].mergeSort catLE).take 2).map (fun c => c.name) =
      ["A", "B"] ∧
    "C" ∉ ["A", "B"] := by
  refine ⟨?_, ?_, by decide⟩
  · with_unfolding_all decide
  · with_unfolding_all decide

/-- C2 counterexample: for a single row with amount 1.25 and variance 1 the
unrounded prior is 1/4, so the displayed (rounded) prior is 0, yet
`variancePct` is 400 rather than the 0 the claim requires whenever the
prior rounds to 0 — the code divides by the unrounded prior. -/
theorem c2_counterexample :
    (processCSVData [fracPriorRow] "All").categories = [fracCategory] ∧
    fracCategory.prior = 0 ∧ fracCategory.variancePct ≠ 0 := by
  refine ⟨?_, rfl, by norm_num [fracCategory]⟩
  with_unfolding_all decide

/-- C3 counterexample: a category whose single driver has variance 0 (and a
non-empty memo list) gets no memos at all from the selector — the loop's
pre-check `cumulative ≥ threshold` already holds at 0 ≥ 0 before the first
driver is added, refuting the claim that the top driver's memos are still
included. -/
theorem c3_counterexample :
    getTop85Memos [zeroVarDriver] "X" = [] ∧ zeroVarDriver.memos ≠ [] := by
  refine ⟨?_, by decide⟩
  with_unfolding_all decide

/-- C2 as amended: every category aggregate arises from accumulator totals
`totalAmount`/`totalVariance` such that the three monetary fields are their
independently rounded values and `variancePct` divides the unrounded total
variance by the *unrounded* prior `totalAmount - totalVariance`, yielding 0
exactly when that unrounded prior is 0. -/
theorem c2_amended (rows : List Row) (mf : String) (c : Category)
    (hc : c ∈ (processCSVData rows mf).categories) :
    ∃ totalAmount totalVariance : ℚ,
      c.current = jsRound totalAmount ∧
      c.variance = jsRound totalVariance ∧
      c.prior = jsRound (totalAmount - totalVariance) ∧
      c.variancePct =
        if totalAmount - totalVariance = 0 then 0
        else totalVariance / (totalAmount - totalVariance) * 100 := by
  simp only [processCSVData] at hc
  obtain ⟨acc, -, rfl⟩ := List.mem_map.mp hc
  refine ⟨acc.totalAmount, acc.totalVariance, by simp [mkCategory],
    by simp [mkCategory], by simp [mkCategory], ?_⟩
  by_cases h : acc.totalAmount - acc.totalVariance = 0
  · simp [mkCategory, h]
  · simp [mkCategory, h]

/-- Witness for `c2_amended` at scenario 1. -/
theorem c2_witness :
    ∃ totalAmount totalVariance : ℚ,
      rentCategory.current = jsRound totalAmount ∧
      rentCategory.variance = jsRound totalVariance ∧
      rentCategory.prior = jsRound (totalAmount - totalVariance) ∧
      rentCategory.variancePct =
        if totalAmount - totalVariance = 0 then 0
        else totalVariance / (totalAmount - totalVariance) * 100 :=
  c2_amended [rentRow] "All" rentCategory (by with_unfolding_all decide)

/-- C3 as amended: when every driver of the category has variance 0 (which
covers both "no drivers" and "all variances zero"), the memo selector
returns no memos at all — the pre-check `cumulative ≥ threshold` holds at
0 ≥ 0 before the first driver is accumulated. -/
theorem c3_amended (drivers : List Driver) (categoryName : String)
    (h : ∀ d ∈ drivers, d.category = categoryName → d.variance = 0) :
    getTop85Memos drivers categoryName = [] := by
  have hall : ∀ d ∈ catDriversOf drivers categoryName, d.variance = 0 := by
    intro d hd
    rw [catDriversOf, List.mem_mergeSort, List.mem_filter] at hd
    exact h d hd.1 (by simpa using hd.2)
  have hsum : ((catDriversOf drivers categoryName).map fun d => |d.variance|).sum = 0 := by
    apply List.sum_eq_zero
    intro x hx
    obtain ⟨d, hd, rfl⟩ := List.mem_map.mp hx
    rw [hall d hd, abs_zero]
  simp only [getTop85Memos]
  rw [hsum, zero_mul]
  cases hcd : catDriversOf drivers categoryName with
  | nil => simp [memoLoop]
  | cons d rest => simp [memoLoop]

/-- Witness for `c3_amended` at a single zero-variance driver. -/
theorem c3_witness : getTop85Memos [zeroVarDriver] "X" = [] :=
  c3_amended [zeroVarDriver] "X" (by decide)

/-- Erasing the provenance tags of the tagged memo loop gives the plain
memo loop. -/
theorem memoLoopTagged_map_snd (t : ℚ) (c : ℚ) (i : Nat) (ds : List Driver) :
    (memoLoopTagged t c i ds).map Prod.snd = memoLoop t c ds := by
  induction ds generalizing c i with
  | nil => simp [memoLoopTagged, memoLoop]
  | cons d rest ih =>
    simp only [memoLoopTagged, memoLoop]
    split
    · simp
    · simp [ih, List.map_map, Function.comp]

/-- Every tag produced by the tagged memo loop is at least the starting
driver index. -/
theorem memoLoopTagged_tag_ge (t : ℚ) (c : ℚ) (i : Nat) (ds : List Driver)
    (p : Nat × String) (hp : p ∈ memoLoopTagged t c i ds) : i ≤ p.1 := by
  induction ds generalizing c i with
  | nil => simp [memoLoopTagged] at hp
  | cons d rest ih =>
    simp only [memoLoopTagged] at hp
    split at hp
    · simp at hp
    · rcases List.mem_append.mp hp with h | h
      · obtain ⟨m, -, rfl⟩ := List.mem_map.mp h
        exact le_refl i
      · exact le_trans (Nat.le_succ i) (ih _ _ h)

/-- No single driver index contributes more than 5 tagged memos. -/
theorem memoLoopTagged_countP (t : ℚ) (c : ℚ) (i k : Nat) (ds : List Driver) :
    ((memoLoopTagged t c i ds).countP fun p => p.1 == k) ≤ 5 := by
  induction ds generalizing c i with
  | nil => simp [memoLoopTagged]
  | cons d rest ih =>
    simp only [memoLoopTagged]
    split
    · simp
    · rw [List.countP_append]
      by_cases hk : k = i
      · have h1 : (((d.memos.take 5).map fun m => (i, m)).countP
            fun p => p.1 == k) ≤ 5 := by
          calc (((d.memos.take 5).map fun m => (i, m)).countP fun p => p.1 == k) ≤
              ((d.memos.take 5).map fun m => (i, m)).length := List.countP_le_length _
            _ = (d.memos.take 5).length := List.length_map _ _
            _ ≤ 5 := List.length_take_le _ _
        have h2 : ((memoLoopTagged t (c + |d.variance|) (i + 1) rest).countP
            fun p => p.1 == k) = 0 := by
          rw [List.countP_eq_zero]
          intro p hp
          have hge := memoLoopTagged_tag_ge t _ _ rest p hp
          simp only [beq_iff_eq]
          omega
        omega
      · have h1 : (((d.memos.take 5).map fun m => (i, m)).countP
            fun p => p.1 == k) = 0 := by
          rw [List.countP_eq_zero]
          intro p hp
          obtain ⟨m, -, rfl⟩ := List.mem_map.mp hp
          simp only [beq_iff_eq]
          omega
        have h2 := ih (c + |d.variance|) (i + 1)
        omega

/-- C4: the memo selector never returns more than 30 memos, its result is
the tag-erasure of the provenance-tagged selector, and no single driver
(identified by its position in the sorted per-category list) contributes
more than 5 of the returned memos. -/
theorem c4_memo_caps (drivers : List Driver) (categoryName : String) :
    (getTop85Memos drivers categoryName).length ≤ 30 ∧
    (getTop85MemosTagged drivers categoryName).map Prod.snd =
      getTop85Memos drivers categoryName ∧
    ∀ i : Nat,
      ((getTop85MemosTagged drivers categoryName).countP fun p => p.1 == i) ≤ 5 := by
  refine ⟨?_, ?_, ?_⟩
  · simp only [getTop85Memos]
    exact List.length_take_le _ _
  · simp only [getTop85Memos, getTop85MemosTagged]
    rw [List.map_take, memoLoopTagged_map_snd]
  · intro i
    simp only [getTop85MemosTagged]
    calc ((List.take 30 (memoLoopTagged
          (((catDriversOf drivers categoryName).map fun d => |d.variance|).sum * (85 / 100))
          0 0 (catDriversOf drivers categoryName))).countP fun p => p.1 == i) ≤
        ((memoLoopTagged
          (((catDriversOf drivers categoryName).map fun d => |d.variance|).sum * (85 / 100))
          0 0 (catDriversOf drivers categoryName)).countP fun p => p.1 == i) :=
        List.Sublist.countP_le _ (List.take_sublist _ _)
      _ ≤ 5 := memoLoopTagged_countP _ _ _ _ _

/-- C10: when some driver of the category has nonzero variance, the memo
selector's result starts with the first `min 5 (length)` memos of the head
of the sorted per-category driver list, and that head has maximal absolute
variance among the category's drivers: the loop always visits the top
driver before it can stop. -/
theorem c10_top_driver (drivers : List Driver) (categoryName : String)
    (top : Driver) (rest : List Driver)
    (hsort : catDriversOf drivers categoryName = top :: rest)
    (hpos : ∃ d ∈ drivers, d.category = categoryName ∧ d.variance ≠ 0) :
    (∀ d ∈ catDriversOf drivers categoryName, |d.variance| ≤ |top.variance|) ∧
    ∃ tail, getTop85Memos drivers categoryName = top.memos.take 5 ++ tail := by
  have hpair : (catDriversOf drivers categoryName).Pairwise fun a b => driverLE a b :=
    List.sorted_mergeSort driverLE_trans driverLE_total _
  constructor
  · intro d hd
    rw [hsort] at hd hpair
    rcases List.mem_cons.mp hd with rfl | hd'
    · exact le_refl _
    · have hle := (List.pairwise_cons.mp hpair).1 d hd'
      simpa [driverLE, decide_eq_true_eq] using hle
  · have hS : 0 < ((catDriversOf drivers categoryName).map fun d => |d.variance|).sum := by
      obtain ⟨d, hd, hcat, hne⟩ := hpos
      have hdin : d ∈ catDriversOf drivers categoryName := by
        rw [catDriversOf, List.mem_mergeSort, List.mem_filter]
        exact ⟨hd, by simp [hcat]⟩
      have habs : |d.variance| ∈ (catDriversOf drivers categoryName).map
          fun d => |d.variance| := List.mem_map_of_mem _ hdin
      have hnn : ∀ x ∈ (catDriversOf drivers categoryName).map
          fun d => |d.variance|, (0 : ℚ) ≤ x := by
        intro x hx
        obtain ⟨e, -, rfl⟩ := List.mem_map.mp hx
        exact abs_nonneg _
      exact lt_of_lt_of_le (abs_pos.mpr hne) (List.single_le_sum hnn _ habs)
    simp only [getTop85Memos]
    rw [hsort] at hS ⊢
    have hth : ¬ ((0 : ℚ) ≥ (((top :: rest).map fun d => |d.variance|).sum * (85 / 100))) := by
      push_neg
      exact mul_pos hS (by norm_num)
    have h5 : (top.memos.take 5).length ≤ 30 :=
      le_trans (List.length_take_le _ _) (by norm_num)
    refine ⟨(memoLoop (((top :: rest).map fun d => |d.variance|).sum * (85 / 100))
      (0 + |top.variance|) rest).take (30 - (top.memos.take 5).length), ?_⟩
    simp only [memoLoop]
    rw [if_neg hth, List.take_append_eq_append_take, List.take_of_length_le h5]

/-- Witness for `c10_top_driver` at a single driver with variance 7. -/
theorem c10_witness :
    (∀ d ∈ catDriversOf [posVarDriver] "X", |d.variance| ≤ |posVarDriver.variance|) ∧
    ∃ tail, getTop85Memos [posVarDriver] "X" = posVarDriver.memos.take 5 ++ tail :=
  c10_top_driver [posVarDriver] "X" posVarDriver []
    (by with_unfolding_all decide)
    ⟨posVarDriver, by simp, rfl, by norm_num [posVarDriver]⟩

/-- C1 as amended: the generator emits one item per category having at
least one driver, in descending absolute-variance order over *all*
categories, and the caller then takes the first N of that already-filtered
list; hence the output length is `min N (number of categories with a
driver)` and every emitted item's category has a driver — a driverless
top-N category's slot is filled by the next category that has one. -/
theorem c1_amended (categories : List Category) (drivers : List Driver) (n : Nat) :
    (runCommentary categories drivers n).length =
      min n (categories.countP fun c => drivers.any fun d => d.category == c.name) ∧
    ∀ item ∈ runCommentary categories drivers n,
      ∃ d ∈ drivers, d.category = item.categoryName := by
  constructor
  · simp only [runCommentary, generatePythonCommentary]
    rw [List.length_take, List.length_filterMap_eq_countP]
    congr 1
    rw [(List.mergeSort_perm categories catLE).countP_eq]
    refine List.countP_congr fun cat _ => ?_
    cases hcd : catDriversOf drivers cat.name with
    | nil =>
      have hfil : drivers.filter (fun d => d.category == cat.name) = [] := by
        have hlen : ((drivers.filter fun d => d.category == cat.name).mergeSort
            driverLE).length = (drivers.filter fun d => d.category == cat.name).length :=
          List.length_mergeSort _
        rw [catDriversOf] at hcd
        rw [hcd] at hlen
        exact List.length_eq_zero.mp hlen.symm
      simp only [hcd, Option.isSome_none]
      constructor
      · intro hfalse
        exact absurd hfalse (by simp)
      · intro hany
        obtain ⟨d, hd, hpred⟩ := List.any_eq_true.mp hany
        have : d ∈ drivers.filter fun d => d.category == cat.name :=
          List.mem_filter.mpr ⟨hd, hpred⟩
        rw [hfil] at this
        exact absurd this (List.not_mem_nil d)
    | cons top rest2 =>
      have htop : top ∈ catDriversOf drivers cat.name := by
        rw [hcd]
        exact List.mem_cons_self _ _
      rw [catDriversOf, List.mem_mergeSort, List.mem_filter] at htop
      simp only [hcd, Option.isSome_some, true_iff]
      exact List.any_eq_true.mpr ⟨top, htop.1, htop.2⟩
  · intro item hitem
    simp only [runCommentary, generatePythonCommentary] at hitem
    have hitem' := List.mem_of_mem_take hitem
    obtain ⟨cat, -, hfc⟩ := List.mem_filterMap.mp hitem'
    cases hcd : catDriversOf drivers cat.name with
    | nil =>
      rw [hcd] at hfc
      exact absurd hfc (by simp)
    | cons top rest2 =>
      rw [hcd] at hfc
      have hname : item.categoryName = cat.name := by
        have := Option.some.inj hfc
        rw [← this]
      have htop : top ∈ catDriversOf drivers cat.name := by
        rw [hcd]
        exact List.mem_cons_self _ _
      rw [catDriversOf, List.mem_mergeSort, List.mem_filter] at htop
      refine ⟨top, htop.1, ?_⟩
      rw [hname]
      simpa using htop.2

/-- Witness for `c1_amended` on the A/B/C fixture with N = 2. -/
theorem c1_witness :
    (runCommentary [catA, catB, catC] [drvB, drvC] 2).length =
      min 2 ([catA, catB, catC].countP fun c => [drvB, drvC].any
        fun d => d.category == c.name) ∧
    ∃ d ∈ [drvB, drvC], d.category = itemB.categoryName :=
  ⟨(c1_amended [catA, catB, catC] [drvB, drvC] 2).1,
    (c1_amended [catA, catB, catC] [drvB, drvC] 2).2 itemB
      (by with_unfolding_all decide)⟩

/-- The enhancement loop preserves the length of the commentary list. -/
theorem enhanceGo_length (d : List Driver) (o : Nat → ServiceBehavior)
    (j : Nat) (l : List CommentaryItem) : (enhanceGo d o j l).length = l.length := by
  induction l generalizing j with
  | nil => rfl
  | cons a l ih => simp [enhanceGo, ih]

/-- Element-wise description of the enhancement loop: the item at index `i`
of the output is the step function applied to the input item at `i`. -/
theorem enhanceGo_getElem (d : List Driver) (o : Nat → ServiceBehavior)
    (l : List CommentaryItem) (j i : Nat) :
    (enhanceGo d o j l)[i]? = (l[i]?).map (stepEnhance d o (j + i)) := by
  induction l generalizing j i with
  | nil => simp [enhanceGo]
  | cons a l ih =>
    cases i with
    | zero => simp [enhanceGo]
    | succ i =>
      simp only [enhanceGo, List.getElem?_cons_succ]
      have harith : j + 1 + i = j + (i + 1) := by omega
      rw [ih (j + 1) i, harith]

/-- A thrown call or an effectively empty response leaves the item
untouched. -/
theorem stepEnhance_of_fail (d : List Driver) (o : Nat → ServiceBehavior)
    (i : Nat) (item : CommentaryItem)
    (h : o i = ServiceBehavior.throwErr ∨ respText (o i) = "") :
    stepEnhance d o i item = item := by
  rcases h with h | h
  · simp [stepEnhance, h]
  · cases ho : o i with
    | throwErr => simp [stepEnhance, ho]
    | respond content =>
      rw [ho] at h
      simp only [respText] at h
      simp [stepEnhance, ho, h]

/-- The step function reads the oracle only at its own index. -/
theorem stepEnhance_congr (d : List Driver) (o o' : Nat → ServiceBehavior)
    (i : Nat) (item : CommentaryItem) (h : o i = o' i) :
    stepEnhance d o i item = stepEnhance d o' i item := by
  unfold stepEnhance
  rw [h]

/-- The step function can only change `aiEnhancement` and `type`: the four
remaining fields always survive unchanged. -/
theorem stepEnhance_fields (d : List Driver) (o : Nat → ServiceBehavior)
    (i : Nat) (item : CommentaryItem) :
    (stepEnhance d o i item).title = item.title ∧
    (stepEnhance d o i item).pythonSentence = item.pythonSentence ∧
    (stepEnhance d o i item).severity = item.severity ∧
    (stepEnhance d o i item).categoryName = item.categoryName := by
  simp only [stepEnhance]
  split
  · exact ⟨rfl, rfl, rfl, rfl⟩
  · split
    · exact ⟨rfl, rfl, rfl, rfl⟩
    · split
      · exact ⟨rfl, rfl, rfl, rfl⟩
      · exact ⟨rfl, rfl, rfl, rfl⟩

/-- An item whose memo selection is empty is returned verbatim. -/
theorem stepEnhance_of_no_memos (d : List Driver) (o : Nat → ServiceBehavior)
    (i : Nat) (item : CommentaryItem)
    (h : (getTop85Memos d item.categoryName).length = 0) :
    stepEnhance d o i item = item := by
  simp only [stepEnhance]
  rw [if_pos h]

/-- C7: the Commentary Enhancer is a total function of the commentary, the
drivers and the per-item service oracle (no failure escapes it); an item
whose call throws or whose response text is empty comes back unchanged,
and the result at an index depends only on the oracle's answer at that
index — failures of other items cannot affect it. -/
theorem c7_enhancer_fallback (commentary : List CommentaryItem)
    (drivers : List Driver) (oracle oracle' : Nat → ServiceBehavior)
    (i : Nat) (item : CommentaryItem) (hi : commentary[i]? = some item) :
    (enhanceWithAI commentary drivers oracle).length = commentary.length ∧
    (oracle i = ServiceBehavior.throwErr ∨ respText (oracle i) = "" →
      (enhanceWithAI commentary drivers oracle)[i]? = some item) ∧
    (oracle i = oracle' i →
      (enhanceWithAI commentary drivers oracle)[i]? =
        (enhanceWithAI commentary drivers oracle')[i]?) := by
  refine ⟨enhanceGo_length _ _ _ _, ?_, ?_⟩
  · intro h
    rw [enhanceWithAI, enhanceGo_getElem, hi, Option.map_some']
    rw [Nat.zero_add, stepEnhance_of_fail drivers oracle i item h]
  · intro h
    rw [enhanceWithAI, enhanceWithAI, enhanceGo_getElem, enhanceGo_getElem, hi,
      Option.map_some', Option.map_some', Nat.zero_add,
      stepEnhance_congr drivers oracle oracle' i item h]

/-- Witness for `c7_enhancer_fallback`: a throwing oracle leaves the single
item untouched. -/
theorem c7_witness :
    (enhanceWithAI [itemX] [posVarDriver] throwOracle).length = 1 ∧
    (enhanceWithAI [itemX] [posVarDriver] throwOracle)[0]? = some itemX := by
  obtain ⟨h1, h2, -⟩ :=
    c7_enhancer_fallback [itemX] [posVarDriver] throwOracle throwOracle 0 itemX rfl
  exact ⟨h1, h2 (Or.inl rfl)⟩

/-- C9 (frame property): the enhancer returns a list of the same length and
order; at every index the output item keeps the input's `title`,
`pythonSentence`, `severity` and `categoryName` (only `aiEnhancement` and
`type` may differ), and an item whose memo selection is empty is returned
completely unchanged. -/
theorem c9_enhancer_frame (commentary : List CommentaryItem)
    (drivers : List Driver) (oracle : Nat → ServiceBehavior) :
    (enhanceWithAI commentary drivers oracle).length = commentary.length ∧
    ∀ i : Nat, ∀ item : CommentaryItem, commentary[i]? = some item →
      ∃ item', (enhanceWithAI commentary drivers oracle)[i]? = some item' ∧
        item'.title = item.title ∧
        item'.pythonSentence = item.pythonSentence ∧
        item'.severity = item.severity ∧
        item'.categoryName = item.categoryName ∧
        ((getTop85Memos drivers item.categoryName).length = 0 → item' = item) := by
  refine ⟨enhanceGo_length _ _ _ _, ?_⟩
  intro i item hi
  obtain ⟨f1, f2, f3, f4⟩ := stepEnhance_fields drivers oracle i item
  refine ⟨stepEnhance drivers oracle i item, ?_, f1, f2, f3, f4, ?_⟩
  · rw [enhanceWithAI, enhanceGo_getElem, hi, Option.map_some', Nat.zero_add]
  · exact stepEnhance_of_no_memos drivers oracle i item

/-- Witness for `c9_enhancer_frame`: an item over a driverless category
passes through a succeeding oracle completely unchanged. -/
theorem c9_witness :
    ∃ item', (enhanceWithAI [itemNoMemo] [posVarDriver] okOracle)[0]? = some item' ∧
      item' = itemNoMemo := by
  obtain ⟨-, h⟩ := c9_enhancer_frame [itemNoMemo] [posVarDriver] okOracle
  obtain ⟨item', ha, -, -, -, -, hz⟩ := h 0 itemNoMemo rfl
  exact ⟨item', ha, hz (by with_unfolding_all decide)⟩

/-- Keys of an upserted association list are among the old keys plus the
upserted key. -/
theorem updateAssoc_fst_mem {β : Type} (m : List (String × β)) (k : String)
    (f : β → β) (init : β) (x : String)
    (hx : x ∈ (updateAssoc m k f init).map Prod.fst) :
    x ∈ m.map Prod.fst ∨ x = k := by
  induction m with
  | nil =>
    right
    simpa [updateAssoc] using hx
  | cons q rest ih =>
    obtain ⟨k', v⟩ := q
    simp only [updateAssoc] at hx
    by_cases h : k' = k
    · rw [if_pos h] at hx
      simp only [List.map_cons, List.mem_cons] at hx
      rcases hx with rfl | hx
      · left; simp
      · left; simp [hx]
    · rw [if_neg h] at hx
      simp only [List.map_cons, List.mem_cons] at hx
      rcases hx with rfl | hx
      · left; simp
      · rcases ih hx with h' | h'
        · left; simp [h']
        · right; exact h'

/-- Upserting preserves distinctness of the keys. -/
theorem updateAssoc_nodup {β : Type} (m : List (String × β)) (k : String)
    (f : β → β) (init : β) (h : (m.map Prod.fst).Nodup) :
    ((updateAssoc m k f init).map Prod.fst).Nodup := by
  induction m with
  | nil => simp [updateAssoc]
  | cons q rest ih =>
    obtain ⟨k', v⟩ := q
    simp only [updateAssoc]
    by_cases hkk : k' = k
    · rw [if_pos hkk]
      simpa using h
    · rw [if_neg hkk]
      simp only [List.map_cons, List.nodup_cons] at h ⊢
      refine ⟨?_, ih h.2⟩
      intro hmem
      rcases updateAssoc_fst_mem rest k f init k' hmem with h' | h'
      · exact h.1 h'
      · exact hkk h'

/-- A key/value invariant survives an upsert when the update function and
the initial value respect it. -/
theorem updateAssoc_key_inv {β : Type} (key : String → β → Prop)
    (m : List (String × β)) (k : String) (f : β → β) (init : β)
    (hf : ∀ v, key k v → key k (f v))
    (hinit : key k (f init)) :
    (∀ p ∈ m, key p.1 p.2) → ∀ p ∈ updateAssoc m k f init, key p.1 p.2 := by
  induction m with
  | nil =>
    intro _ p hp
    simp only [updateAssoc, List.mem_singleton] at hp
    rw [hp]
    exact hinit
  | cons q rest ih =>
    intro hm p hp
    obtain ⟨k', v⟩ := q
    simp only [updateAssoc] at hp
    by_cases hkk : k' = k
    · rw [if_pos hkk] at hp
      rcases List.mem_cons.mp hp with rfl | hp'
      · have hv : key k' v := hm _ (List.mem_cons_self _ _)
        rw [hkk] at hv ⊢
        exact hf v hv
      · exact hm _ (List.mem_cons_of_mem _ hp')
    · rw [if_neg hkk] at hp
      rcases List.mem_cons.mp hp with rfl | hp'
      · exact hm _ (List.mem_cons_self _ _)
      · exact ih (fun p hp => hm p (List.mem_cons_of_mem _ hp)) p hp'

/-- One driver-aggregation step preserves the `driverMap` invariant: keys
stay distinct and each key stays the joined key of its value's triple. -/
theorem driverStep_inv (m : List (String × Driver)) (r : Row)
    (h : driverMapInv m) : driverMapInv (driverStep m r) := by
  rcases hsc : r.spendCategory with _ | cat
  · simpa [driverStep, hsc] using h
  rcases hcc : r.costCenter with _ | cc
  · simpa [driverStep, hsc, hcc] using h
  simp only [driverStep, hsc, hcc]
  split
  · exact h
  · refine ⟨updateAssoc_nodup _ _ _ _ h.1, ?_⟩
    exact updateAssoc_key_inv
      (fun (k : String) (d : Driver) => k = mkKey d.category d.costCenter d.supplier)
      _ _ _ _ (fun v hv => hv) rfl h.2

/-- Folding the driver-aggregation step over any row list preserves the
`driverMap` invariant. -/
theorem foldl_driverStep_inv (rows : List Row) :
    ∀ m, driverMapInv m → driverMapInv (rows.foldl driverStep m) := by
  induction rows with
  | nil => exact fun m h => h
  | cons r rows ih => exact fun m h => ih _ (driverStep_inv m r h)

/-- The driver list produced by the pipeline has pairwise-distinct
(category, costCenter, supplier) triples. -/
theorem processCSVData_driver_triples (rows : List Row) (mf : String) :
    (processCSVData rows mf).drivers.Pairwise fun d1 d2 => ¬ sameTriple d1 d2 := by
  have hinv : driverMapInv ((filterByMarket rows mf).foldl driverStep []) :=
    foldl_driverStep_inv _ [] ⟨by simp, by simp⟩
  obtain ⟨hnd, hkey⟩ := hinv
  have hnd' : (((filterByMarket rows mf).foldl driverStep []).map Prod.fst).Pairwise
      (fun a b => a ≠ b) := hnd
  have hpl : ((filterByMarket rows mf).foldl driverStep []).Pairwise
      (fun p q => p.1 ≠ q.1) := List.pairwise_map.mp hnd'
  have hm : ((filterByMarket rows mf).foldl driverStep []).Pairwise
      (fun p q => ¬ sameTriple p.2 q.2) := by
    refine hpl.imp_of_mem ?_
    intro p q hp hq hne hsame
    apply hne
    rw [hkey p hp, hkey q hq]
    obtain ⟨h1, h2, h3⟩ := hsame
    rw [h1, h2, h3]
  have hsnd : (((filterByMarket rows mf).foldl driverStep []).map Prod.snd).Pairwise
      (fun d1 d2 => ¬ sameTriple d1 d2) := List.pairwise_map.mpr hm
  have hround : ((((filterByMarket rows mf).foldl driverStep []).map Prod.snd).map
      (fun d : Driver => { d with variance := jsRound d.variance })).Pairwise
      (fun d1 d2 => ¬ sameTriple d1 d2) := by
    rw [List.pairwise_map]
    exact hsnd.imp (fun h hs => h hs)
  have hsymm : ∀ {d1 d2 : Driver},
      (¬ sameTriple d1 d2) → ¬ sameTriple d2 d1 := by
    intro d1 d2 h hs
    exact h ⟨hs.1.symm, hs.2.1.symm, hs.2.2.symm⟩
  simp only [processCSVData]
  exact ((List.mergeSort_perm _ driverLE).pairwise_iff hsymm).mpr hround

/-- C8: the pipeline's driver output never contains two aggregates with the
same (category, costCenter, supplier) triple, and this holds for the input
rows in any arrival order (any permutation of them). -/
theorem c8_driver_uniqueness (rows rows' : List Row) (mf : String)
    (hperm : rows.Perm rows') :
    ((processCSVData rows mf).drivers.Pairwise fun d1 d2 => ¬ sameTriple d1 d2) ∧
    ((processCSVData rows' mf).drivers.Pairwise fun d1 d2 => ¬ sameTriple d1 d2) :=
  ⟨processCSVData_driver_triples rows mf, processCSVData_driver_triples rows' mf⟩

/-- Witness for `c8_driver_uniqueness` on a two-row input and its swap. -/
theorem c8_witness :
    ((processCSVData [rentRow, fracPriorRow] "All").drivers.Pairwise
      fun d1 d2 => ¬ sameTriple d1 d2) ∧
    ((processCSVData [fracPriorRow, rentRow] "All").drivers.Pairwise
      fun d1 d2 => ¬ sameTriple d1 d2) :=
  c8_driver_uniqueness [rentRow, fracPriorRow] [fracPriorRow, rentRow] "All"
    (List.Perm.swap fracPriorRow rentRow [])

end VarianceTool
